import Mathlib

/-!
A shallow embedding of the core of the `genius` Go package: the HTML lyric
extractor (`Extract`, `findDivLyrics`, `htmlToText`, `walk`), the rate-limit
aware request executor (`doRequest`, `retryDuration`) and the adaptive
paginator (`GetArtistSongs`, `GetArtistAlbums`, `getPerPage`), together with
theorems settling the specification claims about them.

Conventions of the embedding:
* the parsed markup tree (`golang.org/x/net/html`) keeps Go's pointer shape:
  a `Node` is either `nil` or a node with a `FirstChild` and a `NextSibling`
  chain, so a `Node` value denotes a node together with its following
  siblings;
* Go byte strings are modelled as Lean `String`s handled through their
  character lists (all literals involved are ASCII);
* a Go runtime panic (nil-pointer dereference) is the explicit value
  `GoPanic.nilDeref` in an `Except` result;
* the HTTP server is modelled as the finite trace of responses it returns,
  consumed in order; a loop that is still running when the trace runs out
  yields `none` (the surrogate for non-termination / further requests).
-/

set_option autoImplicit false

namespace Genius

/-! ## Markup tree data model (`golang.org/x/net/html` nodes) -/

/-- The node kinds of `html.NodeType` that matter to the extractor. -/
inductive NodeType where
  | errorNode
  | textNode
  | documentNode
  | elementNode
  | commentNode
  | doctypeNode
deriving DecidableEq, Repr

/-- One key/value attribute pair (`html.Attribute`). -/
structure Attr where
  key : String
  val : String
deriving DecidableEq, Repr

/-- A markup-tree node pointer: `nil`, or a node carrying its kind, tag atom
(`DataAtom`, `"div"` for div elements), text/tag payload (`Data`), attribute
list, first child and next sibling — exactly the navigational shape of Go's
`html.Node`. -/
inductive Node where
  | nil
  | mk (type : NodeType) (dataAtom : String) (data : String)
       (attr : List Attr) (child : Node) (sib : Node)
deriving DecidableEq, Repr

/-- Attribute list of the pointed-to node (`[]` for nil). -/
def Node.attrOf : Node → List Attr
  | .nil => []
  | .mk _ _ _ a _ _ => a

/-- Is this the nil pointer? -/
def Node.isNil : Node → Bool
  | .nil => true
  | .mk _ _ _ _ _ _ => false

/-- A Go runtime panic observed by the model (nil-pointer dereference). -/
inductive GoPanic where
  | nilDeref
deriving DecidableEq, Repr

/-! ## Small string helpers mirroring Go's `strings` package -/

/-- Containment of `sub` in `s` at any position, on character lists. -/
def containsAux (s sub : List Char) : Bool :=
  sub.isPrefixOf s ||
    match s with
    | [] => false
    | _ :: rest => containsAux rest sub

/-- `strings.Contains s sub` (byte containment, modelled on character lists). -/
def goContains (s sub : String) : Bool :=
  containsAux s.data sub.data

/-- `strings.HasSuffix s suffix`. -/
def goHasSuffix (s suffix : String) : Bool :=
  suffix.data.isSuffixOf s.data

/-- The string part of `strings.CutSuffix s suffix`: drop the final
`suffix.length` characters. -/
def goCutSuffix (s suffix : String) : String :=
  ⟨s.data.take (s.data.length - suffix.data.length)⟩

/-- `strings.TrimSpace`: drop leading and trailing whitespace. -/
def trimSpace (s : String) : String :=
  ⟨((s.data.dropWhile Char.isWhitespace).reverse.dropWhile Char.isWhitespace).reverse⟩

/-! ## The extractor (`extractor.go` embedded in the repository README) -/

/-- `walk` returns without visiting for comment, doctype and error nodes. -/
def skipType (t : NodeType) : Bool :=
  t = NodeType.commentNode || t = NodeType.doctypeNode || t = NodeType.errorNode

/-- The attribute scan of `findDivLyrics`: some attribute has
`Key == "id"` and `Val == "lyrics-root"`. -/
def idMatch (a : List Attr) : Bool :=
  a.any fun at0 => at0.key = "id" && at0.val = "lyrics-root"

/-- The first boilerplate loop of `findDivLyrics`: for each attribute of the
container's original first child whose value contains `"LyricsHeader"`, the
then-current first child is removed (`node.RemoveChild(node.FirstChild)`).
Removing when no child is left dereferences nil inside `RemoveChild`. -/
def dropFrontPer : List Attr → Node → Except GoPanic Node
  | [], cs => .ok cs
  | a :: rest, .nil =>
    if goContains a.val "LyricsHeader" then .error .nilDeref
    else dropFrontPer rest .nil
  | a :: rest, .mk t da d al c sib =>
    if goContains a.val "LyricsHeader" then dropFrontPer rest sib
    else dropFrontPer rest (.mk t da d al c sib)

/-- Remove the last node of a sibling chain. -/
def dropLastN : Node → Node
  | .nil => .nil
  | .mk _ _ _ _ _ .nil => .nil
  | .mk t da d a c (.mk t2 da2 d2 a2 c2 sib2) =>
    .mk t da d a c (dropLastN (.mk t2 da2 d2 a2 c2 sib2))

/-- The attribute list of the last node of a sibling chain (`none` when the
chain is empty, i.e. the `LastChild` pointer is nil). -/
def lastAttr : Node → Option (List Attr)
  | .nil => none
  | .mk _ _ _ a _ .nil => some a
  | .mk _ _ _ _ _ (.mk t2 da2 d2 a2 c2 sib2) => lastAttr (.mk t2 da2 d2 a2 c2 sib2)

/-- The second boilerplate loop of `findDivLyrics`: for each attribute of the
then-current last child whose value contains `"Footer"`, the then-current
last child is removed (`node.RemoveChild(node.LastChild)`). -/
def dropBackPer : List Attr → Node → Except GoPanic Node
  | [], cs => .ok cs
  | a :: rest, .nil =>
    if goContains a.val "Footer" then .error .nilDeref
    else dropBackPer rest .nil
  | a :: rest, .mk t da d al c sib =>
    if goContains a.val "Footer" then dropBackPer rest (dropLastN (.mk t da d al c sib))
    else dropBackPer rest (.mk t da d al c sib)

/-- The whole boilerplate strip performed by `findDivLyrics` on the matched
container's child chain.  An empty chain panics at `node.FirstChild.Attr`
(and, after the header removals emptied the chain, at `node.LastChild.Attr`). -/
def stripKids (cs : Node) : Except GoPanic Node :=
  match cs with
  | .nil => .error .nilDeref
  | .mk _ _ _ a _ _ =>
    match dropFrontPer a cs with
    | .error p => .error p
    | .ok cs1 =>
      match lastAttr cs1 with
      | none => .error .nilDeref
      | some la => dropBackPer la cs1

/-- A matched container (a single node, sibling pointer nil) after
`findDivLyrics` stripped its children. -/
def stripContainer : Node → Except GoPanic Node
  | .nil => .error .nilDeref
  | .mk t da d a c sib =>
    match stripKids c with
    | .error p => .error p
    | .ok c' => .ok (.mk t da d a c' sib)

/-- Pass 1 of `Extract`: `walk(root, findDivLyrics)`.  The accumulator is the
`e.node` field: each matched div overwrites it with its stripped self, and the
walk does not descend below a matched div, but keeps visiting siblings. -/
def walkFind : Node → Option Node → Except GoPanic (Option Node)
  | .nil, acc => .ok acc
  | .mk t da d a c sib, acc =>
    if skipType t then walkFind sib acc
    else if da = "div" && idMatch a then
      match stripKids c with
      | .error p => .error p
      | .ok c' => walkFind sib (some (.mk t da d a c' .nil))
    else
      match walkFind c acc with
      | .error p => .error p
      | .ok acc' => walkFind sib acc'

/-- Pass 2 of `Extract`: `walk(e.node, htmlToText)` — every text node appends
its payload plus a newline to `e.text`; every non-skipped node is descended. -/
def walkText : Node → String → String
  | .nil, acc => acc
  | .mk t _ d _ c sib, acc =>
    if skipType t then walkText sib acc
    else walkText sib (walkText c (if t = NodeType.textNode then acc ++ d ++ "\n" else acc))

/-- `Extract` on an already parsed root.  When no container was located,
`e.node` is nil and the second `walk` dereferences it (`node.Type`): the Go
program panics, modelled as `GoPanic.nilDeref`. -/
def Extract (root : Node) : Except GoPanic String :=
  match walkFind root none with
  | .error p => .error p
  | .ok none => .error .nilDeref
  | .ok (some n) => .ok (walkText n "")

/-- The extracted text after the `strings.TrimSpace` step of `GetLyrics`. -/
def extractTrimmed (root : Node) : Except GoPanic String :=
  match Extract root with
  | .error p => .error p
  | .ok s => .ok (trimSpace s)

/-- The string post-processing of `GetLyrics`: trim, then cut a final
`"Embed"` if present. -/
def postProcess (s : String) : String :=
  let lyrics := trimSpace s
  if goHasSuffix lyrics "Embed" then goCutSuffix lyrics "Embed" else lyrics

/-- `GetLyrics` after the page body was fetched and parsed. -/
def GetLyrics (root : Node) : Except GoPanic String :=
  match Extract root with
  | .error p => .error p
  | .ok s => .ok (postProcess s)

/-! ## Specification-side descriptions of the locate pass -/

/-- The sequence of containers matched by the locate pass, in document
(depth-first, pre-order) order: comment/doctype/error nodes are skipped, a
matched div is recorded (as a single node keeping its children) and its
subtree pruned, all other nodes are descended into. -/
def matchSeq : Node → List Node
  | .nil => []
  | .mk t da d a c sib =>
    if skipType t then matchSeq sib
    else if da = "div" && idMatch a then .mk t da d a c .nil :: matchSeq sib
    else matchSeq c ++ matchSeq sib

/-- Later match wins: keep `later` when present, otherwise `earlier`. -/
def pick (later earlier : Option Node) : Option Node :=
  match later with
  | some x => some x
  | none => earlier

/-- Strip every matched container in order (each strip may panic, the first
panic aborts); the surviving value is the stripped LAST match. -/
def stripAll : List Node → Except GoPanic (Option Node)
  | [] => .ok none
  | m :: rest =>
    match stripContainer m with
    | .error p => .error p
    | .ok s =>
      match stripAll rest with
      | .error p => .error p
      | .ok r => .ok (pick r (some s))

/-- The text payloads of the text nodes of a subtree-with-siblings, in
document order (a plain structural description, independent of the walk
mechanics). -/
def textsOf : Node → List String
  | .nil => []
  | .mk t _ d _ c sib =>
    (if t = NodeType.textNode then [d] else []) ++ textsOf c ++ textsOf sib

/-- Each payload followed by a newline, concatenated. -/
def joinNL : List String → String
  | [] => ""
  | s :: rest => s ++ "\n" ++ joinNL rest

/-- Well-formedness of a parsed document: text, comment, doctype and error
nodes own no children (true of every tree `html.Parse` produces). -/
def wfN : Node → Bool
  | .nil => true
  | .mk t _ _ _ c sib =>
    (t = NodeType.elementNode || t = NodeType.documentNode || c.isNil)
      && wfN c && wfN sib

/-- No node of the tree is a div carrying the `id="lyrics-root"` attribute
(checked over the whole tree, comments included). -/
def noDivWithId : Node → Bool
  | .nil => true
  | .mk _ da _ a c sib =>
    !(da = "div" && idMatch a) && noDivWithId c && noDivWithId sib

/-- All elements (of any tag) of the tree carrying the `id="lyrics-root"`
attribute, in document order, as single nodes keeping their children. -/
def elemsWithId : Node → List Node
  | .nil => []
  | .mk t da d a c sib =>
    (if t = NodeType.elementNode && idMatch a then [.mk t da d a c .nil] else [])
      ++ elemsWithId c ++ elemsWithId sib

/-- Modelled from the claim's words, for comparison with the code: the first
child is removed when any of ITS attribute values contains `"LyricsHeader"`
(one removal at most), then the last child is removed when any of its
attribute values contains `"Footer"` (one removal at most). -/
def specStrip : Node → Node
  | .nil => .nil
  | .mk t da d a c sib =>
    let c1 :=
      match c with
      | .nil => Node.nil
      | .mk ct cda cd ca cc csib =>
        if ca.any (fun at0 => goContains at0.val "LyricsHeader") then csib
        else .mk ct cda cd ca cc csib
    let c2 :=
      match lastAttr c1 with
      | none => c1
      | some la =>
        if la.any (fun at0 => goContains at0.val "Footer") then dropLastN c1 else c1
    .mk t da d a c2 sib

/-- Modelled from the claim's words: on a document with exactly one element
carrying `id="lyrics-root"`, the extraction result is the newline-terminated
concatenation of the text payloads of that element's subtree after the
(single) header/footer removals, trimmed. -/
def specExtract (root : Node) : Option String :=
  match elemsWithId root with
  | [c] => some (trimSpace (joinNL (textsOf (specStrip c))))
  | _ => none

/-! ## The resilient request executor (`doRequest`, `retryDuration`) -/

/-- Decimal digits to a number; `none` on any non-digit. -/
def digitsToNat (cs : List Char) : Option Nat :=
  cs.foldl
    (fun acc c =>
      match acc with
      | none => none
      | some n => if c.isDigit then some (n * 10 + (c.toNat - 48)) else none)
    (some 0)

/-- `strconv.ParseInt(raw, 10, 32)`: optional sign, at least one digit, all
digits, and the value must fit a signed 32-bit integer. -/
def parseInt32 (s : String) : Option Int :=
  let signed : Bool × List Char :=
    match s.data with
    | '+' :: rest => (false, rest)
    | '-' :: rest => (true, rest)
    | rest => (false, rest)
  if signed.2.isEmpty then none
  else
    match digitsToNat signed.2 with
    | none => none
    | some n =>
      let v : Int := if signed.1 then -(n : Int) else (n : Int)
      if v < -(2 ^ 31) ∨ 2 ^ 31 - 1 < v then none else some v

/-- Modelled from the spec's words (for comparison with `parseInt32`):
"parsed as an integer count of seconds", with no range restriction. -/
def specParseInt (s : String) : Option Int :=
  let signed : Bool × List Char :=
    match s.data with
    | '+' :: rest => (false, rest)
    | '-' :: rest => (true, rest)
    | rest => (false, rest)
  if signed.2.isEmpty then none
  else
    match digitsToNat signed.2 with
    | none => none
    | some n => some (if signed.1 then -(n : Int) else (n : Int))

/-- `retryDuration`, in seconds: the `Retry-After` header value (the empty
string models an absent header), else the 5-second default. -/
def retryDuration (raw : String) : Int :=
  if raw = "" then 5
  else
    match parseInt32 raw with
    | none => 5
    | some seconds => seconds

/-- One attempt of the executor's loop, as the server/transport sees it. -/
inductive Attempt where
  | transportErr (e : String)
  | response (status : Int) (retryAfter : String) (body : String)
deriving DecidableEq, Repr

/-- What `doRequest` hands back to its caller. -/
inductive ReqOutcome where
  | success (body : String)
  | transportError (e : String)
  | upstreamError (body : String)
  | pending
deriving DecidableEq, Repr

/-- Executor result: the outcome plus the log of sleep durations (seconds)
taken before retries.  `pending` means the attempt trace ran out while the
loop was still retrying (it has no retry limit). -/
structure ReqResult where
  outcome : ReqOutcome
  sleeps : List Int
deriving DecidableEq, Repr

/-- `doRequest`: consume attempts until one is decisive.  A transport error
propagates at once; a 429/1015 response only causes a sleep of
`retryDuration` and a retry; any other non-200 fails at once with the raw
body as detail; a 200 succeeds with the body. -/
def doRequest : List Attempt → ReqResult
  | [] => ⟨.pending, []⟩
  | .transportErr e :: _ => ⟨.transportError e, []⟩
  | .response status ra body :: rest =>
    if status = 429 ∨ status = 1015 then
      let r := doRequest rest
      ⟨r.outcome, retryDuration ra :: r.sleeps⟩
    else if status = 200 then ⟨.success body, []⟩
    else ⟨.upstreamError body, []⟩

/-! ## The adaptive paginator -/

/-- A decoded page envelope: the server-reported next page (0 = exhausted)
and the page's item list (items are abstract ids). -/
structure PageEnvelope where
  nextPage : Int
  items : List Nat
deriving DecidableEq, Repr

/-- `getPerPage(total, fetched, perPage)`. -/
def getPerPage (total fetched perPage : Int) : Int :=
  if total - fetched < perPage then total - fetched else perPage

/-- The page-fetch loop of `GetArtistSongs`.  `pending` is the trace of
server responses, consumed one per issued request; `reqs` logs each issued
`(per_page, page)` pair.  The first component is `none` when the trace ran
out with the loop still running. -/
def songsLoop (fetchUntilEnd : Bool) (total : Int) :
    List (Except String PageEnvelope) → List Nat → List (Int × Int) → Int → Int →
      Option (Except String (List Nat)) × List (Int × Int)
  | pending, songs, reqs, newPerPage, page =>
    if fetchUntilEnd || newPerPage > 0 then
      match pending with
      | [] => (none, reqs ++ [(newPerPage, page)])
      | .error e :: _ => (some (.error e), reqs ++ [(newPerPage, page)])
      | .ok env :: rest =>
        if fetchUntilEnd && env.nextPage = 0 then
          (some (.ok songs), reqs ++ [(newPerPage, page)])
        else
          songsLoop fetchUntilEnd total rest (songs ++ env.items)
            (reqs ++ [(newPerPage, page)])
            (if fetchUntilEnd then newPerPage
             else getPerPage total ((env.nextPage - 1) * 50) 50)
            env.nextPage
    else (some (.ok songs), reqs)

/-- `GetArtistSongs(id, sort, total)` against a response trace: `total = -1`
requests everything; otherwise `total` items are wanted.  Note that in the
unbounded mode `newPerPage` keeps its zero value. -/
def GetArtistSongs (pending : List (Except String PageEnvelope)) (total : Int) :
    Option (Except String (List Nat)) × List (Int × Int) :=
  let fetchUntilEnd := total = -1
  let newPerPage := if fetchUntilEnd then 0 else getPerPage total 0 50
  songsLoop fetchUntilEnd total pending [] [] newPerPage 1

/-- The page-fetch loop of `GetArtistAlbums` (also the shape of
`GetAlbumTracks`): run while `page >= 1`, request 50 per page, append the
envelope's items, and take the server's next page as the new cursor. -/
def albumsLoop :
    List (Except String PageEnvelope) → List Nat → List (Int × Int) → Int →
      Option (Except String (List Nat)) × List (Int × Int)
  | pending, albums, reqs, page =>
    if page ≥ 1 then
      match pending with
      | [] => (none, reqs ++ [(50, page)])
      | .error e :: _ => (some (.error e), reqs ++ [(50, page)])
      | .ok env :: rest =>
        albumsLoop rest (albums ++ env.items) (reqs ++ [(50, page)]) env.nextPage
    else (some (.ok albums), reqs)

/-- `GetArtistAlbums(id)` against a response trace. -/
def GetArtistAlbums (pending : List (Except String PageEnvelope)) :
    Option (Except String (List Nat)) × List (Int × Int) :=
  albumsLoop pending [] [] 1

/-- The trace of a conforming server for a bounded fetch: starting at `page`
with `m` items still to serve, every request is answered with exactly the
requested number of items and with next page `page + 1`.  `fuel` bounds the
recursion; `fuel ≥ m` (and `m ≥ 1`) makes it complete. -/
def conformTrace : Nat → Int → Nat → List PageEnvelope
  | 0, _, _ => []
  | f + 1, page, m =>
    if m = 0 then []
    else if m ≤ 50 then [⟨page + 1, List.replicate m 0⟩]
    else ⟨page + 1, List.replicate 50 0⟩ :: conformTrace f (page + 1) (m - 50)

/-- The adaptive page sizes of the specification: each request asks for
`min(50, remaining)` and the remaining count drops by what was requested. -/
def sizePattern : Nat → Nat → List Int
  | 0, _ => []
  | f + 1, m =>
    if m = 0 then [] else min 50 (m : Int) :: sizePattern f (m - 50)

/-- The request log a bounded conforming run produces: adaptive sizes paired
with consecutive page numbers. -/
def reqPattern : Nat → Int → Nat → List (Int × Int)
  | 0, _, _ => []
  | f + 1, page, m =>
    if m = 0 then []
    else if m ≤ 50 then [((m : Int), page)]
    else (50, page) :: reqPattern f (page + 1) (m - 50)

/-! ## Lemmas: locate-pass refinement -/

/-- Sequencing of a strip batch: first panic wins, else later match wins. -/
def stripSeq (e1 e2 : Except GoPanic (Option Node)) : Except GoPanic (Option Node) :=
  match e1 with
  | .error p => .error p
  | .ok r1 =>
    match e2 with
    | .error p => .error p
    | .ok r2 => .ok (pick r2 r1)

/-- Feeding an accumulator into a strip-batch result. -/
def seqPick (e : Except GoPanic (Option Node)) (acc : Option Node) :
    Except GoPanic (Option Node) :=
  match e with
  | .error p => .error p
  | .ok r => .ok (pick r acc)

theorem pick_none_right (r : Option Node) : pick r none = r := by
  cases r <;> rfl

theorem pick_pick_some (r : Option Node) (s : Node) (acc : Option Node) :
    pick (pick r (some s)) acc = pick r (some s) := by
  cases r <;> rfl

theorem pick_assoc (r2 r1 acc : Option Node) :
    pick (pick r2 r1) acc = pick r2 (pick r1 acc) := by
  cases r2 <;> cases r1 <;> rfl

theorem stripAll_append (l1 l2 : List Node) :
    stripAll (l1 ++ l2) = stripSeq (stripAll l1) (stripAll l2) := by
  induction l1 with
  | nil =>
    cases h : stripAll l2 <;> simp [stripAll, stripSeq, pick_none_right, h]
  | cons m l1 ih =>
    simp only [List.cons_append, stripAll, List.append_eq]
    rw [ih]
    cases hm : stripContainer m with
    | error p => rfl
    | ok s =>
      cases h1 : stripAll l1 with
      | error p => simp [stripSeq]
      | ok r1 =>
        cases h2 : stripAll l2 with
        | error p => simp [stripSeq, h1, h2]
        | ok r2 => simp [stripSeq, h1, h2, pick_assoc]

/-- The first pass of `Extract` is exactly: strip every matched container in
document order (matched subtrees pruned), last match winning over the
incoming accumulator. -/
theorem walkFind_eq (n : Node) : ∀ acc,
    walkFind n acc = seqPick (stripAll (matchSeq n)) acc := by
  induction n with
  | nil => intro acc; rfl
  | mk t da d a c sib ihc ihs =>
    intro acc
    by_cases hs : skipType t = true
    · simp only [walkFind, matchSeq, hs, if_true, ihs]
    · simp only [walkFind, matchSeq, hs, if_false, Bool.false_eq_true]
      by_cases hm : (decide (da = "div") && idMatch a) = true
      · simp only [hm, if_true]
        cases hk : stripKids c with
        | error p => simp [stripAll, stripContainer, hk, seqPick]
        | ok c' =>
          simp only [ihs, stripAll, stripContainer, hk]
          cases stripAll (matchSeq sib) with
          | error p => rfl
          | ok r => simp [seqPick, pick_pick_some]
      · simp only [hm, if_false, Bool.false_eq_true, stripAll_append]
        cases hc : stripAll (matchSeq c) with
        | error p => simp [ihc, hc, seqPick, stripSeq]
        | ok r1 =>
          simp only [ihc, hc, seqPick]
          cases hs2 : stripAll (matchSeq sib) with
          | error p => simp [ihs, hs2, seqPick, stripSeq]
          | ok r2 => simp [ihs, hs2, seqPick, stripSeq, pick_assoc]

theorem stripAll_concat_ok (ms : List Node) (lastM s : Node)
    (hok : ∀ m ∈ ms, ∃ t, stripContainer m = Except.ok t)
    (hl : stripContainer lastM = Except.ok s) :
    stripAll (ms ++ [lastM]) = .ok (some s) := by
  induction ms with
  | nil => simp [stripAll, hl, pick]
  | cons m ms ih =>
    obtain ⟨t, ht⟩ := hok m (List.mem_cons_self m ms)
    have ih' := ih fun x hx => hok x (List.mem_cons_of_mem m hx)
    simp [stripAll, ht, ih', pick]

/-- If no div in the whole tree carries the id attribute, nothing matches. -/
theorem noDivWithId_matchSeq (n : Node) (h : noDivWithId n = true) :
    matchSeq n = [] := by
  induction n with
  | nil => rfl
  | mk t da d a c sib ihc ihs =>
    simp only [noDivWithId, Bool.and_eq_true, Bool.not_eq_eq_eq_not, Bool.not_true] at h
    obtain ⟨⟨hno, hc⟩, hsib⟩ := h
    by_cases hs : skipType t = true
    · simp [matchSeq, hs, ihs hsib]
    · simp [matchSeq, hs, hno, ihc hc, ihs hsib]

/-! ## Claim theorems: extractor -/

/-- C10: during the locate pass only div elements are tested for the id
attribute; a document whose only `id="lyrics-root"` carriers are non-div
elements locates no container (and `Extract` then dereferences the nil
container pointer). -/
theorem c10_only_div_tested (root : Node) (h : noDivWithId root = true) :
    walkFind root none = .ok none ∧ Extract root = .error GoPanic.nilDeref := by
  have hm : walkFind root none = .ok none := by
    rw [walkFind_eq, noDivWithId_matchSeq root h]; rfl
  exact ⟨hm, by simp [Extract, hm]⟩

/-- A concrete document whose sole `id="lyrics-root"` element is a `section`:
the attribute matches but no container is located and extraction panics. -/
def sectionDoc : Node :=
  .mk .documentNode "" ""  []
    (.mk .elementNode "section" "section" [⟨"id", "lyrics-root"⟩]
      (.mk .textNode "" "la la" [] .nil .nil) .nil)
    .nil

/-- C10 witness: `sectionDoc` has an `id="lyrics-root"` attribute on a
non-div element, yet nothing is located. -/
theorem c10_witness :
    walkFind sectionDoc none = .ok none ∧
      Extract sectionDoc = .error GoPanic.nilDeref :=
  c10_only_div_tested sectionDoc (by decide)

/-- C2: when the locate pass matches several containers, the one used is the
LAST match in document order (matched subtrees pruned, siblings still
visited): earlier matches are stripped and then silently overwritten. -/
theorem c2_last_match_wins (root lastM s : Node) (ms : List Node)
    (hms : matchSeq root = ms ++ [lastM])
    (hok : ∀ m ∈ ms, ∃ t, stripContainer m = Except.ok t)
    (hl : stripContainer lastM = Except.ok s) :
    walkFind root none = .ok (some s) := by
  rw [walkFind_eq, hms, stripAll_concat_ok ms lastM s hok hl]; rfl

/-- A document with two `div id="lyrics-root"` containers. -/
def twoContainersDoc : Node :=
  .mk .documentNode "" "" []
    (.mk .elementNode "div" "div" [⟨"id", "lyrics-root"⟩]
      (.mk .textNode "" "first" [] .nil .nil)
      (.mk .elementNode "div" "div" [⟨"id", "lyrics-root"⟩]
        (.mk .textNode "" "second" [] .nil .nil) .nil))
    .nil

/-- The first container of `twoContainersDoc` as recorded by the pass. -/
def firstContainer : Node :=
  .mk .elementNode "div" "div" [⟨"id", "lyrics-root"⟩]
    (.mk .textNode "" "first" [] .nil .nil) .nil

/-- The second (winning) container of `twoContainersDoc`, stripped. -/
def secondContainer : Node :=
  .mk .elementNode "div" "div" [⟨"id", "lyrics-root"⟩]
    (.mk .textNode "" "second" [] .nil .nil) .nil

/-- C2 witness: on `twoContainersDoc` the located container is the second
one, and the extracted text comes from it. -/
theorem c2_witness :
    walkFind twoContainersDoc none = .ok (some secondContainer) :=
  c2_last_match_wins twoContainersDoc secondContainer secondContainer
    [firstContainer] rfl
    (by
      intro m hm
      rw [List.mem_singleton] at hm
      subst hm
      exact ⟨firstContainer, rfl⟩)
    rfl

/-- A well-formed document containing no `lyrics-root` container at all. -/
def noContainerDoc : Node :=
  .mk .documentNode "" "" []
    (.mk .elementNode "html" "html" []
      (.mk .elementNode "body" "body" []
        (.mk .elementNode "p" "p" [] (.mk .textNode "" "hello" [] .nil .nil) .nil)
        .nil)
      .nil)
    .nil

/-- C5: on a parsed document with no matching container, `Extract` does NOT
return a distinct "container not found" error — it dereferences the nil
container pointer (`e.walk(e.node, e.htmlToText)` with `e.node == nil`), a
runtime panic. -/
theorem c5_no_container_panics :
    Extract noContainerDoc = .error GoPanic.nilDeref := rfl

/-! ## Lemmas: strings and linearization -/

theorem strAppend_assoc : ∀ (a b c : String), a ++ b ++ c = a ++ (b ++ c)
  | ⟨x⟩, ⟨y⟩, ⟨z⟩ => congrArg String.mk (List.append_assoc x y z)

theorem strAppend_empty : ∀ (a : String), a ++ "" = a
  | ⟨x⟩ => congrArg String.mk (List.append_nil x)

theorem empty_strAppend : ∀ (a : String), "" ++ a = a
  | ⟨x⟩ => congrArg String.mk (List.nil_append x)

theorem joinNL_append (l1 l2 : List String) :
    joinNL (l1 ++ l2) = joinNL l1 ++ joinNL l2 := by
  induction l1 with
  | nil => rw [List.nil_append, joinNL, empty_strAppend]
  | cons s l1 ih => simp [joinNL, ih, strAppend_assoc]

theorem wfN_mk (t : NodeType) (da d : String) (a : List Attr) (c sib : Node) :
    wfN (.mk t da d a c sib) = true ↔
      ((t = NodeType.elementNode ∨ t = NodeType.documentNode) ∨ c.isNil = true)
        ∧ wfN c = true ∧ wfN sib = true := by
  simp [wfN, Bool.or_assoc, Bool.and_assoc, or_assoc]

theorem wf_dropLastN (cs : Node) (h : wfN cs = true) : wfN (dropLastN cs) = true := by
  induction cs with
  | nil => exact h
  | mk t da d a c sib ihc ihs =>
    rw [wfN_mk] at h
    obtain ⟨h1, h2, h3⟩ := h
    cases sib with
    | nil => rfl
    | mk t2 da2 d2 a2 c2 sib2 =>
      rw [dropLastN, wfN_mk]
      exact ⟨h1, h2, ihs h3⟩

theorem wf_dropFrontPer (attrs : List Attr) (cs cs' : Node) (h : wfN cs = true)
    (he : dropFrontPer attrs cs = .ok cs') : wfN cs' = true := by
  induction attrs generalizing cs with
  | nil =>
    rw [dropFrontPer] at he
    cases he; exact h
  | cons a rest ih =>
    cases cs with
    | nil =>
      rw [dropFrontPer] at he
      by_cases hc : goContains a.val "LyricsHeader" = true
      · rw [if_pos hc] at he; cases he
      · rw [if_neg hc] at he; exact ih .nil h he
    | mk t da d a2 c sib =>
      rw [dropFrontPer] at he
      rw [wfN_mk] at h
      by_cases hc : goContains a.val "LyricsHeader" = true
      · rw [if_pos hc] at he
        exact ih sib h.2.2 he
      · rw [if_neg hc] at he
        exact ih _ (wfN_mk t da d a2 c sib |>.mpr h) he

theorem wf_dropBackPer (attrs : List Attr) (cs cs' : Node) (h : wfN cs = true)
    (he : dropBackPer attrs cs = .ok cs') : wfN cs' = true := by
  induction attrs generalizing cs with
  | nil =>
    rw [dropBackPer] at he
    cases he; exact h
  | cons a rest ih =>
    cases cs with
    | nil =>
      rw [dropBackPer] at he
      by_cases hc : goContains a.val "Footer" = true
      · rw [if_pos hc] at he; cases he
      · rw [if_neg hc] at he; exact ih .nil h he
    | mk t da d a2 c sib =>
      rw [dropBackPer] at he
      by_cases hc : goContains a.val "Footer" = true
      · rw [if_pos hc] at he
        exact ih _ (wf_dropLastN _ h) he
      · rw [if_neg hc] at he
        exact ih _ h he

theorem wf_stripKids (cs cs' : Node) (h : wfN cs = true)
    (he : stripKids cs = .ok cs') : wfN cs' = true := by
  cases cs with
  | nil => cases he
  | mk t da d a c sib =>
    rw [stripKids] at he
    cases h1 : dropFrontPer a (.mk t da d a c sib) with
    | error p => simp only [h1] at he; exact Except.noConfusion he
    | ok cs1 =>
      simp only [h1] at he
      cases h2 : lastAttr cs1 with
      | none => simp only [h2] at he; exact Except.noConfusion he
      | some la =>
        simp only [h2] at he
        exact wf_dropBackPer la cs1 cs' (wf_dropFrontPer a _ cs1 h h1) he

theorem wf_stripContainer (n n' : Node) (h : wfN n = true)
    (he : stripContainer n = .ok n') : wfN n' = true := by
  cases n with
  | nil => cases he
  | mk t da d a c sib =>
    rw [stripContainer] at he
    cases hk : stripKids c with
    | error p => simp only [hk] at he; exact Except.noConfusion he
    | ok c' =>
      simp only [hk, Except.ok.injEq] at he
      subst he
      rw [wfN_mk] at h ⊢
      obtain ⟨h1, h2, h3⟩ := h
      refine ⟨Or.inl ?_, wf_stripKids c c' h2 hk, h3⟩
      rcases h1 with h1 | h1
      · exact h1
      · exfalso
        cases c with
        | nil => rw [stripKids] at hk; cases hk
        | mk => rw [Node.isNil] at h1; cases h1

theorem wf_matchSeq (n : Node) (h : wfN n = true) :
    ∀ m ∈ matchSeq n, wfN m = true := by
  induction n with
  | nil => intro m hm; cases hm
  | mk t da d a c sib ihc ihs =>
    intro m hm
    rw [wfN_mk] at h
    obtain ⟨h1, h2, h3⟩ := h
    rw [matchSeq] at hm
    by_cases hs : skipType t = true
    · rw [if_pos hs] at hm
      exact ihs h3 m hm
    · rw [if_neg hs] at hm
      by_cases hd : (decide (da = "div") && idMatch a) = true
      · rw [if_pos hd] at hm
        rcases List.mem_cons.mp hm with hm | hm
        · subst hm
          rw [wfN_mk]
          exact ⟨h1, h2, rfl⟩
        · exact ihs h3 m hm
      · rw [if_neg hd] at hm
        rcases List.mem_append.mp hm with hm | hm
        · exact ihc h2 m hm
        · exact ihs h3 m hm

/-- A nil-flagged pointer is the nil pointer. -/
theorem isNil_node (c : Node) (h : c.isNil = true) : c = .nil := by
  cases c with
  | nil => rfl
  | mk t da d a c2 sib => exact Bool.noConfusion h

/-- For well-formed trees, the text walk appends exactly the
newline-terminated text payloads in document order. -/
theorem walkText_join (n : Node) (h : wfN n = true) :
    ∀ acc, walkText n acc = acc ++ joinNL (textsOf n) := by
  induction n with
  | nil => intro acc; rw [walkText, textsOf, joinNL, strAppend_empty]
  | mk t da d a c sib ihc ihs =>
    intro acc
    rw [wfN_mk] at h
    obtain ⟨h1, h2, h3⟩ := h
    by_cases hs : skipType t = true
    · have htx : ¬ t = NodeType.textNode := by
        intro hT; subst hT; exact Bool.noConfusion hs
      have hcnil : c = .nil := by
        rcases h1 with (h1 | h1) | h1
        · subst h1; exact Bool.noConfusion hs
        · subst h1; exact Bool.noConfusion hs
        · exact isNil_node c h1
      subst hcnil
      simp [walkText, hs, htx, textsOf, ihs h3]
    · by_cases htx : t = NodeType.textNode
      · have hcnil : c = .nil := by
          rcases h1 with (h1 | h1) | h1
          · subst htx; exact NodeType.noConfusion h1
          · subst htx; exact NodeType.noConfusion h1
          · exact isNil_node c h1
        subst hcnil
        subst htx
        simp [walkText, hs, textsOf, ihs h3, joinNL, strAppend_assoc]
      · simp [walkText, hs, htx, textsOf, ihc h2, ihs h3, joinNL_append, strAppend_assoc]

/-! ## Claim C1: full extraction on a single-container document -/

/-- A document whose container's first child carries TWO attribute values
containing `"LyricsHeader"`: the claim predicts one removal, the code removes
one child per matching attribute. -/
def doubleHeaderDoc : Node :=
  .mk .documentNode "" "" []
    (.mk .elementNode "div" "div" [⟨"id", "lyrics-root"⟩]
      (.mk .elementNode "div" "div"
          [⟨"class", "LyricsHeader1"⟩, ⟨"data-x", "xLyricsHeaderx"⟩]
          (.mk .textNode "" "a" [] .nil .nil)
        (.mk .elementNode "div" "div" [] (.mk .textNode "" "b" [] .nil .nil)
          (.mk .elementNode "div" "div" [] (.mk .textNode "" "c" [] .nil .nil) .nil)))
      .nil)
    .nil

/-- C1 counterexample: on `doubleHeaderDoc` (one `lyrics-root` element whose
first child has two `LyricsHeader` attribute values), the claim's described
result is `"b\nc"` but the code returns `"c"`: the code removed two leading
children, not one. -/
theorem c1_counterexample :
    specExtract doubleHeaderDoc = some "b\nc" ∧
      extractTrimmed doubleHeaderDoc = .ok "c" ∧
      some "b\nc" ≠ (some "c" : Option String) :=
  ⟨rfl, rfl, by decide⟩

/-- C1 (amended): for a well-formed document on which the locate pass matches
exactly one container and the code's boilerplate strip succeeds (one leading
child removed per `LyricsHeader`-containing attribute value of the original
first child, then one trailing child per `Footer`-containing attribute value
of the then-current last child), the trimmed extraction is the
newline-terminated concatenation of the text payloads of the stripped
container's subtree, in document order, trimmed. -/
theorem c1_single_container (root container stripped : Node)
    (hwf : wfN root = true)
    (hone : matchSeq root = [container])
    (hstrip : stripContainer container = .ok stripped) :
    extractTrimmed root = .ok (trimSpace (joinNL (textsOf stripped))) := by
  have hfind : walkFind root none = .ok (some stripped) := by
    rw [walkFind_eq, hone]
    simp [stripAll, hstrip, seqPick, pick]
  have hwfc : wfN container = true := by
    refine wf_matchSeq root hwf container ?_
    rw [hone]; exact List.mem_singleton.mpr rfl
  have hwfs : wfN stripped = true := wf_stripContainer container stripped hwfc hstrip
  have hEx : Extract root = .ok (walkText stripped "") := by
    rw [Extract]
    simp only [hfind]
  rw [extractTrimmed]
  simp only [hEx]
  rw [walkText_join stripped hwfs "", empty_strAppend]

/-- A well-formed single-container document for the C1 witness: header and
footer boilerplate present, one matching attribute each. -/
def singleContainerDoc : Node :=
  .mk .documentNode "" "" []
    (.mk .elementNode "div" "div" [⟨"id", "lyrics-root"⟩]
      (.mk .elementNode "div" "div" [⟨"class", "xLyricsHeaderx"⟩]
          (.mk .textNode "" "hdr" [] .nil .nil)
        (.mk .textNode "" "line1"  []  .nil
          (.mk .elementNode "div" "div" [⟨"class", "Footer7"⟩]
            (.mk .textNode "" "ftr" [] .nil .nil) .nil)))
      .nil)
    .nil

/-- The container of `singleContainerDoc` after the code's strip. -/
def singleContainerStripped : Node :=
  .mk .elementNode "div" "div" [⟨"id", "lyrics-root"⟩]
    (.mk .textNode "" "line1" [] .nil .nil) .nil

/-- C1 witness: on `singleContainerDoc` the hypotheses hold and the trimmed
extraction is the trimmed newline-joined text of the stripped container. -/
theorem c1_witness :
    extractTrimmed singleContainerDoc
      = .ok (trimSpace (joinNL (textsOf singleContainerStripped))) :=
  c1_single_container singleContainerDoc
    (.mk .elementNode "div" "div" [⟨"id", "lyrics-root"⟩]
      (.mk .elementNode "div" "div" [⟨"class", "xLyricsHeaderx"⟩]
          (.mk .textNode "" "hdr" [] .nil .nil)
        (.mk .textNode "" "line1" [] .nil
          (.mk .elementNode "div" "div" [⟨"class", "Footer7"⟩]
            (.mk .textNode "" "ftr" [] .nil .nil) .nil)))
      .nil)
    singleContainerStripped (by decide) rfl rfl

/-! ## Claim C9: the Embed suffix -/

theorem strAppend_dataOf : ∀ (a b : String), (a ++ b).data = a.data ++ b.data
  | ⟨_⟩, ⟨_⟩ => rfl

theorem strOfData {a b : String} (h : a.data = b.data) : a = b := by
  cases a; cases b
  exact congrArg String.mk h

/-- Cutting a genuine suffix and appending it back restores the string. -/
theorem goCutSuffix_append (s suffix : String) (h : goHasSuffix s suffix = true) :
    goCutSuffix s suffix ++ suffix = s := by
  rw [goHasSuffix, List.isSuffixOf_iff_suffix] at h
  obtain ⟨pre, hpre⟩ := h
  apply strOfData
  rw [strAppend_dataOf, goCutSuffix, ← hpre]
  have hlen : (pre ++ suffix.data).length - suffix.data.length = pre.length := by
    rw [List.length_append]; omega
  rw [hlen, List.take_left]

/-- C9: after trimming, the returned lyric text has the literal suffix
`"Embed"` removed exactly when the trimmed text ends with it; otherwise the
trimmed text is returned unmodified (no other normalization). -/
theorem c9_embed_suffix (s : String) :
    (goHasSuffix (trimSpace s) "Embed" = true →
        postProcess s ++ "Embed" = trimSpace s) ∧
    (goHasSuffix (trimSpace s) "Embed" = false →
        postProcess s = trimSpace s) := by
  constructor
  · intro h
    simp only [postProcess, h, if_true]
    exact goCutSuffix_append _ _ h
  · intro h
    simp [postProcess, h]

/-- C9 witness: a trimmed text ending in `"Embed"` loses the suffix; one
ending in `"Embedded"` is returned unmodified. -/
theorem c9_witness :
    (postProcess "  laEmbed " ++ "Embed" = trimSpace "  laEmbed ") ∧
    (postProcess " laEmbedded " = trimSpace " laEmbedded ") :=
  ⟨(c9_embed_suffix "  laEmbed ").1 (by decide),
   (c9_embed_suffix " laEmbedded ").2 (by decide)⟩

/-! ## Claims C6/C7: the resilient request executor -/

/-- C6: the executor's result is decided by the response status alone — a
transport error propagates at once (no retry); a 429/1015 response is never
the outcome (the loop just continues, with no retry limit); any other
non-200 fails at once with the raw body as detail; a 200 succeeds with the
body. -/
theorem c6_status_decides (status : Int) (e ra body : String)
    (rest : List Attempt) (n : Nat) :
    doRequest (.transportErr e :: rest) = ⟨.transportError e, []⟩ ∧
    ((status = 429 ∨ status = 1015) →
      (doRequest (.response status ra body :: rest)).outcome
        = (doRequest rest).outcome) ∧
    (doRequest (List.replicate n (.response 429 ra body) ++ rest)).outcome
        = (doRequest rest).outcome ∧
    (status ≠ 429 → status ≠ 1015 → status ≠ 200 →
      doRequest (.response status ra body :: rest) = ⟨.upstreamError body, []⟩) ∧
    doRequest (.response 200 ra body :: rest) = ⟨.success body, []⟩ := by
  refine ⟨rfl, ?_, ?_, ?_, ?_⟩
  · intro h
    rw [doRequest, if_pos h]
  · induction n with
    | zero => rfl
    | succ k ih =>
      rw [List.replicate_succ, List.cons_append, doRequest, if_pos (Or.inl rfl)]
      exact ih
  · intro h1 h2 h3
    rw [doRequest, if_neg (by tauto), if_neg h3]
  · rw [doRequest, if_neg (by decide), if_pos rfl]

/-- C6 witness: a 500 response fails immediately with the body as detail. -/
theorem c6_witness :
    doRequest [Attempt.response 500 "" "oops"] = ⟨.upstreamError "oops", []⟩ :=
  (c6_status_decides 500 "" "" "oops" [] 0).2.2.2.1
    (by decide) (by decide) (by decide)

/-- C7 counterexample: the header value `"2147483648"` does parse as an
integer (per the claim's words, modelled by `specParseInt`), yet the wait is
the 5-second default, not 2147483648 seconds: the code parses with
`strconv.ParseInt(_, 10, 32)`, which rejects values outside 32-bit range. -/
theorem c7_counterexample :
    specParseInt "2147483648" = some 2147483648 ∧
    retryDuration "2147483648" = 5 ∧ (2147483648 : Int) ≠ 5 :=
  ⟨rfl, rfl, by decide⟩

/-- C7 (amended): before each retry of a rate-limited request the executor
sleeps `retryDuration` of the `Retry-After` header: the value parsed as a
SIGNED 32-BIT integer when that parse succeeds, and the 5-second default when
the header is absent or that parse fails (non-numeric, or out of 32-bit
range). -/
theorem c7_retry_wait (status : Int) (ra body : String) (rest : List Attempt)
    (h : status = 429 ∨ status = 1015) :
    (doRequest (.response status ra body :: rest)).sleeps
        = retryDuration ra :: (doRequest rest).sleeps ∧
    (∀ k, parseInt32 ra = some k → retryDuration ra = k) ∧
    (parseInt32 ra = none → retryDuration ra = 5) := by
  refine ⟨?_, ?_, ?_⟩
  · rw [doRequest, if_pos h]
  · intro k hk
    rw [retryDuration]
    by_cases hra : ra = ""
    · subst hra
      rw [show parseInt32 "" = none from rfl] at hk
      exact Option.noConfusion hk
    · rw [if_neg hra, hk]
  · intro h0
    rw [retryDuration]
    by_cases hra : ra = ""
    · rw [if_pos hra]
    · rw [if_neg hra, h0]

/-- C7 witness: a 429 with `Retry-After: 2` sleeps 2 seconds before the
retry. -/
theorem c7_witness :
    (doRequest [Attempt.response 429 "2" "x"]).sleeps
      = 2 :: (doRequest []).sleeps := by
  have h := (c7_retry_wait 429 "2" "x" [] (Or.inl rfl)).1
  rw [h]
  rfl

/-! ## Paginator lemmas -/

theorem songsLoop_unbounded (fitems : List Nat) :
    ∀ (body : List PageEnvelope), (∀ e ∈ body, e.nextPage ≠ 0) →
    ∀ (extra : List (Except String PageEnvelope)) (songs : List Nat)
      (reqs : List (Int × Int)) (page : Int),
      songsLoop true (-1)
          (body.map Except.ok ++ Except.ok ⟨0, fitems⟩ :: extra) songs reqs 0 page
        = (some (Except.ok (songs ++ body.flatMap PageEnvelope.items)),
           reqs ++ (0, page) :: body.map fun e => ((0 : Int), e.nextPage)) := by
  intro body
  induction body with
  | nil =>
    intro _ extra songs reqs page
    rw [songsLoop.eq_def]
    simp
  | cons e body ih =>
    intro hbody extra songs reqs page
    have he : decide (e.nextPage = 0) = false :=
      decide_eq_false (hbody e (List.mem_cons_self e body))
    rw [songsLoop.eq_def]
    simp only [List.map_cons, List.cons_append, Bool.true_or, if_true, Bool.true_and, he,
      Bool.false_eq_true, if_false]
    rw [ih (fun x hx => hbody x (List.mem_cons_of_mem e hx)) extra
      (songs ++ e.items) (reqs ++ [(0, page)]) e.nextPage]
    simp [List.append_assoc]

theorem songsLoop_noStop :
    ∀ (envs : List PageEnvelope), (∀ e ∈ envs, e.nextPage ≠ 0) →
    ∀ (songs : List Nat) (reqs : List (Int × Int)) (page : Int),
      (songsLoop true (-1) (envs.map Except.ok) songs reqs 0 page).1 = none := by
  intro envs
  induction envs with
  | nil =>
    intro _ songs reqs page
    rw [songsLoop.eq_def]
    simp
  | cons e envs ih =>
    intro henvs songs reqs page
    have he : decide (e.nextPage = 0) = false :=
      decide_eq_false (henvs e (List.mem_cons_self e envs))
    rw [songsLoop.eq_def]
    simp only [List.map_cons, Bool.true_or, if_true, Bool.true_and, he,
      Bool.false_eq_true, if_false]
    exact ih (fun x hx => henvs x (List.mem_cons_of_mem e hx)) _ _ _

theorem albumsLoop_run (fitems : List Nat) :
    ∀ (body : List PageEnvelope), (∀ e ∈ body, 1 ≤ e.nextPage) →
    ∀ (extra : List (Except String PageEnvelope)) (albums : List Nat)
      (reqs : List (Int × Int)) (page : Int), 1 ≤ page →
      albumsLoop (body.map Except.ok ++ Except.ok ⟨0, fitems⟩ :: extra)
          albums reqs page
        = (some (Except.ok (albums ++ (body.flatMap PageEnvelope.items ++ fitems))),
           reqs ++ (50, page) :: body.map fun e => ((50 : Int), e.nextPage)) := by
  intro body
  induction body with
  | nil =>
    intro _ extra albums reqs page hp
    rw [albumsLoop.eq_def]
    simp only [List.map_nil, List.nil_append, List.cons_append, ge_iff_le, hp, if_true]
    rw [albumsLoop.eq_def]
    simp only [ge_iff_le]
    rw [if_neg (by omega : ¬ ((1 : Int) ≤ 0))]
    simp
  | cons e body ih =>
    intro hbody extra albums reqs page hp
    rw [albumsLoop.eq_def]
    simp only [List.map_cons, List.cons_append, ge_iff_le, hp, if_true]
    rw [ih (fun x hx => hbody x (List.mem_cons_of_mem e hx)) extra
      (albums ++ e.items) (reqs ++ [(50, page)]) e.nextPage
      (hbody e (List.mem_cons_self e body))]
    simp [List.append_assoc]

/-- C3 counterexample trace: page 1 returns items 10,11 and next page 2; page
2 returns item 20 and next page 0. -/
def lastPageTrace : List (Except String PageEnvelope) :=
  [.ok ⟨2, [10, 11]⟩, .ok ⟨0, [20]⟩]

/-- C3 counterexample: the unbounded song fetch stops at the zero next-page
envelope but DISCARDS that final envelope's items: it returns `[10, 11]`, not
the full concatenation `[10, 11, 20]`. -/
theorem c3_counterexample :
    (GetArtistSongs lastPageTrace (-1)).1 = some (Except.ok [10, 11]) ∧
      ([10, 11] ++ [20] : List Nat) ≠ [10, 11] :=
  ⟨rfl, by decide⟩

/-- C3 (amended): an unbounded song fetch terminates exactly at the first
envelope whose next-page field is zero, returning the concatenation of the
item lists of all EARLIER pages in server order (the final page's items are
discarded), and issuing one request per consumed envelope (at per_page 0 —
the unbounded loop never assigns the page size); if no envelope carries a
zero next-page the loop never finishes.  The album fetch (`page >= 1` loop)
terminates the same way but DOES include the final page's items. -/
theorem c3_unbounded_pagination (fitems : List Nat) (body : List PageEnvelope)
    (extra : List (Except String PageEnvelope))
    (hbody0 : ∀ e ∈ body, e.nextPage ≠ 0)
    (hbody1 : ∀ e ∈ body, 1 ≤ e.nextPage) :
    (GetArtistSongs (body.map Except.ok ++ Except.ok ⟨0, fitems⟩ :: extra) (-1)
      = (some (Except.ok (body.flatMap PageEnvelope.items)),
         (0, 1) :: body.map fun e => ((0 : Int), e.nextPage))) ∧
    (GetArtistAlbums (body.map Except.ok ++ Except.ok ⟨0, fitems⟩ :: extra)
      = (some (Except.ok (body.flatMap PageEnvelope.items ++ fitems)),
         (50, 1) :: body.map fun e => ((50 : Int), e.nextPage))) ∧
    (∀ envs : List PageEnvelope, (∀ e ∈ envs, e.nextPage ≠ 0) →
      (GetArtistSongs (envs.map Except.ok) (-1)).1 = none) := by
  refine ⟨?_, ?_, ?_⟩
  · rw [GetArtistSongs]
    norm_num
    rw [songsLoop_unbounded fitems body hbody0 extra [] [] 1]
    simp
  · rw [GetArtistAlbums]
    rw [albumsLoop_run fitems body hbody1 extra [] [] 1 le_rfl]
    simp
  · intro envs henvs
    rw [GetArtistSongs]
    norm_num
    exact songsLoop_noStop envs henvs [] [] 1

/-- C3 witness: a two-page unbounded run — the songs fetch drops the final
page's item 20; the albums fetch keeps it. -/
theorem c3_witness :
    GetArtistSongs [Except.ok ⟨2, [10, 11]⟩, Except.ok ⟨0, [20]⟩] (-1)
        = (some (Except.ok [10, 11]), [(0, 1), (0, 2)]) ∧
    GetArtistAlbums [Except.ok ⟨2, [10, 11]⟩, Except.ok ⟨0, [20]⟩]
        = (some (Except.ok [10, 11, 20]), [(50, 1), (50, 2)]) := by
  have h := c3_unbounded_pagination [20] [⟨2, [10, 11]⟩] []
    (by decide) (by decide)
  exact ⟨h.1, h.2.1⟩

/-- C8 counterexample trace: the server answers the first (bounded) request
with 50 items and next-page 0. -/
def pageZeroTrace : List (Except String PageEnvelope) :=
  [.ok ⟨0, List.replicate 50 0⟩]

/-- C8 counterexample: a bounded fetch (target 125) whose server reports
next-page 0 issues its second request with page number 0 — the `page ≥ 1`
part of the claimed invariant fails for such next-page values. -/
theorem c8_counterexample :
    (GetArtistSongs pageZeroTrace 125).2 = [(50, 1), (50, 0)] ∧
      ¬ (1 ≤ (0 : Int)) :=
  ⟨rfl, by decide⟩

/-- The bounded loop against a conforming server: starting at `page` with
`m > 0` items still wanted (`total = 50*(page-1) + m`, proxy fetched count
`50*(page-1)`), it requests the adaptive sizes and collects exactly `m`
items. -/
theorem songsLoop_conform :
    ∀ (f m : Nat) (total proxy page : Int)
      (songs : List Nat) (reqs : List (Int × Int)),
      1 ≤ m → m ≤ f → total = 50 * (page - 1) + m → proxy = 50 * (page - 1) →
      songsLoop false total ((conformTrace f page m).map Except.ok) songs reqs
          (getPerPage total proxy 50) page
        = (some (Except.ok (songs ++ List.replicate m 0)),
           reqs ++ reqPattern f page m) := by
  intro f
  induction f with
  | zero => intro m _ _ _ _ _ h1 h2 _ _; omega
  | succ f ih =>
    intro m total proxy page songs reqs h1 h2 htot hproxy
    rw [conformTrace, if_neg (by omega : ¬ m = 0)]
    rw [reqPattern, if_neg (by omega : ¬ m = 0)]
    by_cases hm : m ≤ 50
    · rw [if_pos hm, if_pos hm]
      have hgp : getPerPage total proxy 50 = (m : Int) := by
        rw [getPerPage]; split <;> omega
      rw [hgp]
      rw [songsLoop.eq_def]
      simp only [List.map_cons, List.map_nil, Bool.false_or, Bool.false_and,
        Bool.false_eq_true, if_false, decide_eq_true_eq]
      rw [if_pos (by omega : (0 : Int) < (m : Int))]
      have hnp : (⟨page + 1, List.replicate m 0⟩ : PageEnvelope).nextPage = page + 1 := rfl
      have hgp2 : getPerPage total (((⟨page + 1, List.replicate m 0⟩ : PageEnvelope).nextPage - 1) * 50) 50
          = (m : Int) - 50 := by
        rw [hnp, getPerPage]; split <;> omega
      rw [songsLoop.eq_def]
      simp only [hgp2, Bool.false_or, decide_eq_true_eq]
      rw [if_neg (by omega : ¬ ((0 : Int) < (m : Int) - 50))]
    · rw [if_neg hm, if_neg hm]
      have hgp : getPerPage total proxy 50 = 50 := by
        rw [getPerPage]; split <;> omega
      rw [hgp]
      rw [songsLoop.eq_def]
      simp only [List.map_cons, Bool.false_or, Bool.false_and,
        Bool.false_eq_true, if_false, decide_eq_true_eq]
      rw [if_pos (by omega : (0 : Int) < 50)]
      have harg : getPerPage total ((PageEnvelope.nextPage ⟨page + 1, List.replicate 50 0⟩ - 1) * 50) 50
          = getPerPage total (50 * (page + 1 - 1)) 50 := by
        simp only []
        congr 1
        ring
      rw [harg]
      rw [ih (m - 50) total (50 * (page + 1 - 1)) (page + 1)
        (songs ++ List.replicate 50 0) (reqs ++ [(50, page)])
        (by omega) (by omega) (by omega) rfl]
      simp only [List.append_assoc, List.singleton_append]
      rw [← List.replicate_add]
      have hrep : 50 + (m - 50) = m := by omega
      rw [hrep]

/-- The whole bounded fetch against a conforming server: exactly `N` items
come back and the request log is the adaptive pattern. -/
theorem GetArtistSongs_conform (N : Nat) :
    GetArtistSongs ((conformTrace N 1 N).map Except.ok) (N : Int)
      = (some (Except.ok (List.replicate N 0)), reqPattern N 1 N) := by
  rcases Nat.eq_zero_or_pos N with h0 | hpos
  · subst h0; rfl
  · rw [GetArtistSongs]
    have hne : ¬ ((N : Int) = -1) := by omega
    simp only [hne, if_false, decide_eq_false hne, decide_False, Bool.false_eq_true]
    have h := songsLoop_conform N N (N : Int) 0 1 [] []
      hpos le_rfl (by omega) (by omega)
    rw [h]
    simp

theorem sizePattern_zero (f : Nat) : sizePattern f 0 = [] := by
  cases f <;> rfl

theorem reqPattern_map_fst : ∀ (f : Nat) (page : Int) (m : Nat),
    (reqPattern f page m).map Prod.fst = sizePattern f m := by
  intro f
  induction f with
  | zero => intro page m; rfl
  | succ f ih =>
    intro page m
    by_cases h0 : m = 0
    · subst h0; rfl
    · rw [reqPattern, if_neg h0, sizePattern, if_neg h0]
      by_cases hm : m ≤ 50
      · rw [if_pos hm]
        rw [show m - 50 = 0 from by omega, sizePattern_zero]
        rw [min_eq_right (by omega : (m : Int) ≤ 50)]
        rfl
      · rw [if_neg hm]
        rw [min_eq_left (by omega : (50 : Int) ≤ (m : Int))]
        simp only [List.map_cons, ih]

theorem sizePattern_sum : ∀ (f m : Nat), m ≤ f →
    (sizePattern f m).sum = (m : Int) := by
  intro f
  induction f with
  | zero =>
    intro m hm
    have : m = 0 := by omega
    subst this; rfl
  | succ f ih =>
    intro m hm
    by_cases h0 : m = 0
    · subst h0; rfl
    · rw [sizePattern, if_neg h0]
      by_cases hle : m ≤ 50
      · rw [show m - 50 = 0 from by omega, sizePattern_zero]
        rw [min_eq_right (by omega : (m : Int) ≤ 50)]
        simp
      · rw [min_eq_left (by omega : (50 : Int) ≤ (m : Int))]
        rw [List.sum_cons, ih (m - 50) (by omega)]
        omega

theorem sizePattern_nonneg : ∀ (f m : Nat) (x : Int),
    x ∈ sizePattern f m → 0 ≤ x := by
  intro f
  induction f with
  | zero => intro m x hx; cases hx
  | succ f ih =>
    intro m x hx
    by_cases h0 : m = 0
    · subst h0; cases hx
    · rw [sizePattern, if_neg h0] at hx
      rcases List.mem_cons.mp hx with hx | hx
      · subst hx
        exact le_min (by omega) (by omega)
      · exact ih (m - 50) x hx

theorem sum_take_le (l : List Int) (h : ∀ x ∈ l, 0 ≤ x) :
    ∀ i, (l.take i).sum ≤ l.sum := by
  induction l with
  | nil => intro i; simp
  | cons x l ih =>
    intro i
    cases i with
    | zero =>
      simp only [List.take_zero, List.sum_nil, List.sum_cons]
      have hx := h x (List.mem_cons_self x l)
      have hs : (0 : Int) ≤ l.sum :=
        List.sum_nonneg fun y hy => h y (List.mem_cons_of_mem x hy)
      omega
    | succ j =>
      simp only [List.take_succ_cons, List.sum_cons]
      have := ih (fun y hy => h y (List.mem_cons_of_mem x hy)) j
      omega

theorem reqPattern_pages : ∀ (f : Nat) (page : Int) (m : Nat), 1 ≤ page →
    ∀ r ∈ reqPattern f page m, 1 ≤ r.2 := by
  intro f
  induction f with
  | zero => intro page m _ r hr; cases hr
  | succ f ih =>
    intro page m hp r hr
    by_cases h0 : m = 0
    · subst h0; cases hr
    · rw [reqPattern, if_neg h0] at hr
      by_cases hm : m ≤ 50
      · rw [if_pos hm] at hr
        rcases List.mem_singleton.mp hr with rfl
        exact hp
      · rw [if_neg hm] at hr
        rcases List.mem_cons.mp hr with hr | hr
        · subst hr; exact hp
        · exact ih (page + 1) (m - 50) (by omega) r hr

/-- C4: against a conforming server (each request answered with exactly the
requested number of items and next page `page+1`), a bounded fetch with
target `N` and ceiling 50 issues requests of the adaptive sizes
`min(50, N - fetched-so-far)` at consecutive pages starting from 1, requests
`N` items in total, and returns exactly `N` items; in particular target 125
issues pages of sizes 50, 50, 25 at pages 1, 2, 3 and returns 125 items. -/
theorem c4_bounded_adaptive (N : Nat) :
    (GetArtistSongs ((conformTrace N 1 N).map Except.ok) (N : Int)
        = (some (Except.ok (List.replicate N 0)), reqPattern N 1 N)) ∧
    ((reqPattern N 1 N).map Prod.fst = sizePattern N N) ∧
    ((sizePattern N N).sum = (N : Int)) ∧
    ((GetArtistSongs ((conformTrace 125 1 125).map Except.ok) (125 : Int)).2
        = [(50, 1), (50, 2), (25, 3)]) ∧
    ((GetArtistSongs ((conformTrace 125 1 125).map Except.ok) (125 : Int)).1
        = some (Except.ok (List.replicate 125 0))) :=
  ⟨GetArtistSongs_conform N, reqPattern_map_fst N 1 N,
    sizePattern_sum N N le_rfl, rfl, rfl⟩

/-- C8 (amended): on a bounded conforming run, every issued request carries a
page number of at least 1, and the number of items fetched after any number
of pages (the running totals of the delivered page sizes) never exceeds the
target.  (The invariant as originally claimed — for arbitrary server
next-page values — fails, see the counterexample.) -/
theorem c8_cursor_invariants (N : Nat) :
    (∀ r ∈ (GetArtistSongs ((conformTrace N 1 N).map Except.ok) (N : Int)).2,
        1 ≤ r.2) ∧
    (∀ i, ((((GetArtistSongs ((conformTrace N 1 N).map Except.ok) (N : Int)).2.map
        Prod.fst).take i).sum ≤ (N : Int))) := by
  have h := GetArtistSongs_conform N
  constructor
  · intro r hr
    rw [h] at hr
    exact reqPattern_pages N 1 N le_rfl r hr
  · intro i
    rw [h]
    simp only [reqPattern_map_fst]
    calc ((sizePattern N N).take i).sum
        ≤ (sizePattern N N).sum := sum_take_le _ (sizePattern_nonneg N N) i
      _ = (N : Int) := sizePattern_sum N N le_rfl

/-- C8 witness: at target 125 the first logged request has page 1 ≥ 1 and
the first two pages together fetch at most 125 items. -/
theorem c8_witness :
    1 ≤ (((50 : Int), (1 : Int))).2 ∧
    ((((GetArtistSongs ((conformTrace 125 1 125).map Except.ok) (125 : Int)).2.map
        Prod.fst).take 2).sum ≤ (125 : Int)) :=
  ⟨(c8_cursor_invariants 125).1 (50, 1) (by decide),
   (c8_cursor_invariants 125).2 2⟩

/-- C4 witness: the target-125 instance of the adaptive pattern. -/
theorem c4_witness :
    (GetArtistSongs ((conformTrace 125 1 125).map Except.ok) (125 : Int)).2
      = [(50, 1), (50, 2), (25, 3)] :=
  (c4_bounded_adaptive 125).2.2.2.1

end Genius
